import Mathlib

/-!
Verification of the inverse-kinematics core of the Inverse-Kinematic-Arms
program.  The two pure functions `circle_intersections` and `get_arm_angles`
of `main.py` are embedded over exact real arithmetic.  A Python run that may
raise an exception is modelled by `PyResult`: `ok v` is a normal return of
`v`, `exn` is a raised exception (an `IndexError` from the partition loop is
the only possible one).  Python's `None` is `Option.none` inside the `ok`
payload.
-/

namespace InvKinArms

/-- Outcome of calling a Python function: a returned value, or a raised
exception. -/
inductive PyResult (α : Type) where
  | ok : α → PyResult α
  | exn : PyResult α

/-- Python's `math.atan2 y x`: the argument of the complex number `x + y*i`,
in the interval `(-π, π]`. -/
noncomputable def atan2 (y x : ℝ) : ℝ := Complex.arg ⟨x, y⟩

/-- The distance `d = sqrt((x1 - x0)**2 + (y1 - y0)**2)` computed at the top
of `circle_intersections`. -/
noncomputable def centerDist (x0 y0 x1 y1 : ℝ) : ℝ :=
  Real.sqrt ((x1 - x0) ^ 2 + (y1 - y0) ^ 2)

/-- Embedding of `circle_intersections(x0, y0, r0, x1, y1, r1)` from
`main.py`.  Returns the 4-tuple `(x3, y3, x4, y4)` of the two intersection
points, or `none` for Python's `None`. -/
noncomputable def circle_intersections (x0 y0 r0 x1 y1 r1 : ℝ) :
    Option (ℝ × ℝ × ℝ × ℝ) :=
  let d := centerDist x0 y0 x1 y1
  if d > r0 + r1 then none
  else if d < |r0 - r1| then none
  else if d = 0 ∧ r0 = r1 then none
  else
    let a := (r0 ^ 2 - r1 ^ 2 + d ^ 2) / (2 * d)
    let h := Real.sqrt (r0 ^ 2 - a ^ 2)
    let x2 := x0 + a * (x1 - x0) / d
    let y2 := y0 + a * (y1 - y0) / d
    some (x2 + h * (y1 - y0) / d, y2 - h * (x1 - x0) / d,
          x2 - h * (y1 - y0) / d, y2 + h * (x1 - x0) / d)

/-- The distance `d = sqrt(x**2 + y**2)` computed at the top of
`get_arm_angles`. -/
noncomputable def armD (x y : ℝ) : ℝ := Real.sqrt (x ^ 2 + y ^ 2)

/-- Embedding of the `while` loop of `get_arm_angles` that partitions the
chain.  The state is `(arm_length_1, arm_length_3, second_arm_index)`
together with the still-unconsumed suffix `arm_lengths[second_arm_index:]`
of the segment list.  Reading `arm_lengths[second_arm_index]` with an empty
suffix, or `arm_lengths[second_arm_index + 1]` with a one-element suffix,
is Python's `IndexError`, i.e. `PyResult.exn`.  On normal exit it returns
`(second_arm_index, arm_length_1, arm_length_2, arm_length_3)`. -/
noncomputable def partLoop (d : ℝ) : ℝ → ℝ → ℕ → List ℝ → PyResult (ℕ × ℝ × ℝ × ℝ)
  | _, _, _, [] => .exn
  | l1, l3, i, [c] =>
    if l3 > d + l1 + c then .exn else .ok (i, l1, c, l3)
  | l1, l3, i, c :: c' :: rest =>
    if l3 > d + l1 + c then partLoop d (l1 + c) (l3 - c') (i + 1) (c' :: rest)
    else .ok (i, l1, c, l3)

/-- Embedding of `get_arm_angles(x, y, arm_lengths)` from `main.py`. -/
noncomputable def get_arm_angles (x y : ℝ) (arm_lengths : List ℝ) :
    PyResult (Option (List ℝ)) :=
  if armD x y > arm_lengths.sum then .ok none
  else if armD x y = 0 then .ok none
  else
    match partLoop (armD x y) 0 arm_lengths.tail.sum 0 arm_lengths with
    | .exn => .exn
    | .ok (i, l1, l2, l3) =>
      match circle_intersections (x * (-l1 / armD x y)) (y * (-l1 / armD x y))
          l2 x y l3 with
      | none => .ok none
      | some (x2, y2, _, _) =>
        .ok (some (List.replicate i (atan2 (-y) (-x))
          ++ [atan2 (y2 - y * (-l1 / armD x y)) (x2 - x * (-l1 / armD x y))]
          ++ List.replicate (arm_lengths.length - i - 1)
              (atan2 (y - y2) (x - x2))))

/-- The circle-intersection step that `get_arm_angles` performs after the
partition loop: the circle around the first joint with radius
`arm_length_2` against the circle around the target with radius
`arm_length_3`.  (When the loop itself raises, there is no such step; the
value is irrelevant and taken to be `none`.) -/
noncomputable def circleStep (x y : ℝ) (L : List ℝ) : Option (ℝ × ℝ × ℝ × ℝ) :=
  match partLoop (armD x y) 0 L.tail.sum 0 L with
  | .exn => none
  | .ok (_, l1, l2, l3) =>
    circle_intersections (x * (-l1 / armD x y)) (y * (-l1 / armD x y)) l2 x y l3

/-- The renderer's cumulative walk along the chain: starting at `p`, each
`(angle, length)` pair in order advances by
`length * (cos angle, sin angle)`. -/
noncomputable def walkChain : List ℝ → List ℝ → ℝ × ℝ → ℝ × ℝ
  | a :: as, l :: ls, p =>
    walkChain as ls (p.1 + l * Real.cos a, p.2 + l * Real.sin a)
  | _, _, p => p

/-! ### Basic facts about `atan2` and square roots -/

/-- Evaluate a square root of a known perfect square. -/
lemma sqrt_val {a b : ℝ} (hb : 0 ≤ b) (h : a = b ^ 2) : Real.sqrt a = b := by
  rw [h]; exact Real.sqrt_sq hb

/-- Cosine of `atan2 b a` for a nonzero argument vector. -/
lemma cos_atan2 (b a : ℝ) (h : ¬(a = 0 ∧ b = 0)) :
    Real.cos (atan2 b a) = a / Real.sqrt (a ^ 2 + b ^ 2) := by
  have hz : (⟨a, b⟩ : ℂ) ≠ 0 := by
    simpa [Complex.ext_iff] using h
  rw [atan2, Complex.cos_arg hz, Complex.abs_apply, Complex.normSq_mk]
  norm_num [sq]

/-- Sine of `atan2 b a`. -/
lemma sin_atan2 (b a : ℝ) :
    Real.sin (atan2 b a) = b / Real.sqrt (a ^ 2 + b ^ 2) := by
  rw [atan2, Complex.sin_arg, Complex.abs_apply, Complex.normSq_mk]
  norm_num [sq]

/-- `atan2 0 a = 0` whenever `0 ≤ a`. -/
lemma atan2_zero_of_nonneg {a : ℝ} (ha : 0 ≤ a) : atan2 0 a = 0 := by
  rw [atan2, Complex.arg_eq_zero_iff]
  exact ⟨ha, rfl⟩

/-- Moving by distance `r` in the direction `atan2 b a` covers exactly the
vector `(a, b)` when `(a, b)` has norm `r > 0`. -/
lemma move_along (a b r : ℝ) (hr : 0 < r) (h : a ^ 2 + b ^ 2 = r ^ 2) :
    r * Real.cos (atan2 b a) = a ∧ r * Real.sin (atan2 b a) = b := by
  have hab : ¬(a = 0 ∧ b = 0) := by
    rintro ⟨rfl, rfl⟩
    nlinarith
  have hs : Real.sqrt (a ^ 2 + b ^ 2) = r := sqrt_val hr.le h
  rw [cos_atan2 b a hab, sin_atan2 b a, hs]
  constructor <;> field_simp

/-! ### Facts about `circle_intersections` -/

lemma centerDist_nonneg (x0 y0 x1 y1 : ℝ) : 0 ≤ centerDist x0 y0 x1 y1 :=
  Real.sqrt_nonneg _

lemma centerDist_sq (x0 y0 x1 y1 : ℝ) :
    centerDist x0 y0 x1 y1 ^ 2 = (x1 - x0) ^ 2 + (y1 - y0) ^ 2 :=
  Real.sq_sqrt (by positivity)

/-- If the last two rejection guards fail, the center distance is positive. -/
lemma guards_dist_pos {x0 y0 x1 y1 r0 r1 : ℝ}
    (h2 : ¬ centerDist x0 y0 x1 y1 < |r0 - r1|)
    (h3 : ¬(centerDist x0 y0 x1 y1 = 0 ∧ r0 = r1)) :
    0 < centerDist x0 y0 x1 y1 := by
  rcases (centerDist_nonneg x0 y0 x1 y1).lt_or_eq with h | h
  · exact h
  · exfalso
    push_neg at h2
    rw [← h] at h2
    have : r0 = r1 := by
      have := abs_nonneg (r0 - r1)
      have : |r0 - r1| = 0 := le_antisymm h2 this
      have := abs_eq_zero.mp this
      linarith
    exact h3 ⟨h.symm, this⟩

/-- If all three rejection guards fail, the chord offset `a` satisfies
`a ^ 2 ≤ r0 ^ 2`, so the square root in the success branch is genuine. -/
lemma guards_chord_sq_le {x0 y0 x1 y1 r0 r1 : ℝ}
    (h1 : ¬ centerDist x0 y0 x1 y1 > r0 + r1)
    (h2 : ¬ centerDist x0 y0 x1 y1 < |r0 - r1|)
    (hpos : 0 < centerDist x0 y0 x1 y1) :
    ((r0 ^ 2 - r1 ^ 2 + centerDist x0 y0 x1 y1 ^ 2) /
      (2 * centerDist x0 y0 x1 y1)) ^ 2 ≤ r0 ^ 2 := by
  push_neg at h1 h2
  obtain ⟨hl, hr⟩ := abs_le.mp h2
  rw [div_pow, div_le_iff₀ (by positivity)]
  nlinarith [mul_nonneg (mul_nonneg
      (mul_nonneg (by linarith : (0:ℝ) ≤ r0 + r1 - centerDist x0 y0 x1 y1)
        (by linarith : (0:ℝ) ≤ r0 + r1 + centerDist x0 y0 x1 y1))
      (by linarith : (0:ℝ) ≤ centerDist x0 y0 x1 y1 - (r0 - r1)))
      (by linarith : (0:ℝ) ≤ centerDist x0 y0 x1 y1 + (r0 - r1))]

/-- `circle_intersections` returns `None` exactly when one of its three
guards fires. -/
lemma circle_none_iff (x0 y0 r0 x1 y1 r1 : ℝ) :
    circle_intersections x0 y0 r0 x1 y1 r1 = none ↔
      (centerDist x0 y0 x1 y1 > r0 + r1 ∨
       centerDist x0 y0 x1 y1 < |r0 - r1| ∨
       (centerDist x0 y0 x1 y1 = 0 ∧ r0 = r1)) := by
  simp only [circle_intersections]
  split_ifs <;> simp_all

/-- Explicit form of the success branch of `circle_intersections`. -/
lemma circle_eq_of_guards {x0 y0 r0 x1 y1 r1 : ℝ}
    (h1 : ¬ centerDist x0 y0 x1 y1 > r0 + r1)
    (h2 : ¬ centerDist x0 y0 x1 y1 < |r0 - r1|)
    (h3 : ¬(centerDist x0 y0 x1 y1 = 0 ∧ r0 = r1)) :
    circle_intersections x0 y0 r0 x1 y1 r1 =
      some (x0 + (r0 ^ 2 - r1 ^ 2 + centerDist x0 y0 x1 y1 ^ 2) /
              (2 * centerDist x0 y0 x1 y1) * (x1 - x0) / centerDist x0 y0 x1 y1 +
            Real.sqrt (r0 ^ 2 - ((r0 ^ 2 - r1 ^ 2 + centerDist x0 y0 x1 y1 ^ 2) /
              (2 * centerDist x0 y0 x1 y1)) ^ 2) * (y1 - y0) / centerDist x0 y0 x1 y1,
            y0 + (r0 ^ 2 - r1 ^ 2 + centerDist x0 y0 x1 y1 ^ 2) /
              (2 * centerDist x0 y0 x1 y1) * (y1 - y0) / centerDist x0 y0 x1 y1 -
            Real.sqrt (r0 ^ 2 - ((r0 ^ 2 - r1 ^ 2 + centerDist x0 y0 x1 y1 ^ 2) /
              (2 * centerDist x0 y0 x1 y1)) ^ 2) * (x1 - x0) / centerDist x0 y0 x1 y1,
            x0 + (r0 ^ 2 - r1 ^ 2 + centerDist x0 y0 x1 y1 ^ 2) /
              (2 * centerDist x0 y0 x1 y1) * (x1 - x0) / centerDist x0 y0 x1 y1 -
            Real.sqrt (r0 ^ 2 - ((r0 ^ 2 - r1 ^ 2 + centerDist x0 y0 x1 y1 ^ 2) /
              (2 * centerDist x0 y0 x1 y1)) ^ 2) * (y1 - y0) / centerDist x0 y0 x1 y1,
            y0 + (r0 ^ 2 - r1 ^ 2 + centerDist x0 y0 x1 y1 ^ 2) /
              (2 * centerDist x0 y0 x1 y1) * (y1 - y0) / centerDist x0 y0 x1 y1 +
            Real.sqrt (r0 ^ 2 - ((r0 ^ 2 - r1 ^ 2 + centerDist x0 y0 x1 y1 ^ 2) /
              (2 * centerDist x0 y0 x1 y1)) ^ 2) * (x1 - x0) / centerDist x0 y0 x1 y1) := by
  simp only [circle_intersections]
  rw [if_neg h1, if_neg h2, if_neg h3]

/-- Extract the negated guards from a successful `circle_intersections`. -/
lemma guards_of_circle_some {x0 y0 r0 x1 y1 r1 : ℝ} {t : ℝ × ℝ × ℝ × ℝ}
    (h : circle_intersections x0 y0 r0 x1 y1 r1 = some t) :
    ¬ centerDist x0 y0 x1 y1 > r0 + r1 ∧
    ¬ centerDist x0 y0 x1 y1 < |r0 - r1| ∧
    ¬(centerDist x0 y0 x1 y1 = 0 ∧ r0 = r1) := by
  simp only [circle_intersections] at h
  split_ifs at h with h1 h2 h3
  exact ⟨h1, h2, h3⟩

/-- Algebraic core: a point of the form `center0 + a·u + h·u⊥` with
`|u| = 1`, `h² = r0² − a²` and `a·2d = r0² − r1² + d²` lies on both
circles. -/
lemma inter_point_on (x0 y0 x1 y1 dd aa hh r0 r1 : ℝ) (hd : dd ≠ 0)
    (hdist : dd ^ 2 = (x1 - x0) ^ 2 + (y1 - y0) ^ 2)
    (hsq : hh ^ 2 = r0 ^ 2 - aa ^ 2)
    (ha : aa * (2 * dd) = r0 ^ 2 - r1 ^ 2 + dd ^ 2) :
    ((x0 + aa * (x1 - x0) / dd + hh * (y1 - y0) / dd - x0) ^ 2 +
      (y0 + aa * (y1 - y0) / dd - hh * (x1 - x0) / dd - y0) ^ 2 = r0 ^ 2) ∧
    ((x0 + aa * (x1 - x0) / dd + hh * (y1 - y0) / dd - x1) ^ 2 +
      (y0 + aa * (y1 - y0) / dd - hh * (x1 - x0) / dd - y1) ^ 2 = r1 ^ 2) := by
  constructor
  · have e1 : x0 + aa * (x1 - x0) / dd + hh * (y1 - y0) / dd - x0 =
        (aa * (x1 - x0) + hh * (y1 - y0)) / dd := by ring
    have e2 : y0 + aa * (y1 - y0) / dd - hh * (x1 - x0) / dd - y0 =
        (aa * (y1 - y0) - hh * (x1 - x0)) / dd := by ring
    rw [e1, e2, div_pow, div_pow, div_add_div_same,
      div_eq_iff (pow_ne_zero 2 hd)]
    linear_combination (-(aa ^ 2 + hh ^ 2)) * hdist + dd ^ 2 * hsq
  · have e1 : x0 + aa * (x1 - x0) / dd + hh * (y1 - y0) / dd - x1 =
        ((aa - dd) * (x1 - x0) + hh * (y1 - y0)) / dd := by
      field_simp
      ring
    have e2 : y0 + aa * (y1 - y0) / dd - hh * (x1 - x0) / dd - y1 =
        ((aa - dd) * (y1 - y0) - hh * (x1 - x0)) / dd := by
      field_simp
      ring
    rw [e1, e2, div_pow, div_pow, div_add_div_same,
      div_eq_iff (pow_ne_zero 2 hd)]
    linear_combination (-((aa - dd) ^ 2 + hh ^ 2)) * hdist + dd ^ 2 * hsq -
      dd ^ 2 * ha

/-- Both points returned by `circle_intersections` lie on both circle
boundaries. -/
lemma circle_points_on_circles {x0 y0 r0 x1 y1 r1 x3 y3 x4 y4 : ℝ}
    (h : circle_intersections x0 y0 r0 x1 y1 r1 = some (x3, y3, x4, y4)) :
    ((x3 - x0) ^ 2 + (y3 - y0) ^ 2 = r0 ^ 2 ∧
     (x3 - x1) ^ 2 + (y3 - y1) ^ 2 = r1 ^ 2) ∧
    ((x4 - x0) ^ 2 + (y4 - y0) ^ 2 = r0 ^ 2 ∧
     (x4 - x1) ^ 2 + (y4 - y1) ^ 2 = r1 ^ 2) := by
  obtain ⟨h1, h2, h3⟩ := guards_of_circle_some h
  rw [circle_eq_of_guards h1 h2 h3] at h
  have hpos := guards_dist_pos h2 h3
  have hne : centerDist x0 y0 x1 y1 ≠ 0 := ne_of_gt hpos
  have hble := guards_chord_sq_le h1 h2 hpos
  have hsq : Real.sqrt (r0 ^ 2 - ((r0 ^ 2 - r1 ^ 2 + centerDist x0 y0 x1 y1 ^ 2) /
        (2 * centerDist x0 y0 x1 y1)) ^ 2) ^ 2 =
      r0 ^ 2 - ((r0 ^ 2 - r1 ^ 2 + centerDist x0 y0 x1 y1 ^ 2) /
        (2 * centerDist x0 y0 x1 y1)) ^ 2 :=
    Real.sq_sqrt (by linarith)
  have ha : (r0 ^ 2 - r1 ^ 2 + centerDist x0 y0 x1 y1 ^ 2) /
        (2 * centerDist x0 y0 x1 y1) * (2 * centerDist x0 y0 x1 y1) =
      r0 ^ 2 - r1 ^ 2 + centerDist x0 y0 x1 y1 ^ 2 :=
    div_mul_cancel₀ _ (by positivity)
  simp only [Option.some.injEq, Prod.mk.injEq] at h
  obtain ⟨e3x, e3y, e4x, e4y⟩ := h
  constructor
  · rw [← e3x, ← e3y]
    exact inter_point_on x0 y0 x1 y1 _ _ _ r0 r1 hne
      (centerDist_sq x0 y0 x1 y1) hsq ha
  · rw [← e4x, ← e4y]
    have hmain := inter_point_on x0 y0 x1 y1 (centerDist x0 y0 x1 y1)
      ((r0 ^ 2 - r1 ^ 2 + centerDist x0 y0 x1 y1 ^ 2) /
        (2 * centerDist x0 y0 x1 y1))
      (-Real.sqrt (r0 ^ 2 - ((r0 ^ 2 - r1 ^ 2 + centerDist x0 y0 x1 y1 ^ 2) /
        (2 * centerDist x0 y0 x1 y1)) ^ 2)) r0 r1 hne
      (centerDist_sq x0 y0 x1 y1) (by rw [neg_pow]; simpa using hsq) ha
    constructor
    · linear_combination hmain.1
    · linear_combination hmain.2

/-- Swapping the two circles succeeds with the same two points in swapped
order. -/
lemma circle_swap {x0 y0 r0 x1 y1 r1 x3 y3 x4 y4 : ℝ}
    (h : circle_intersections x0 y0 r0 x1 y1 r1 = some (x3, y3, x4, y4)) :
    circle_intersections x1 y1 r1 x0 y0 r0 = some (x4, y4, x3, y3) := by
  obtain ⟨h1, h2, h3⟩ := guards_of_circle_some h
  have hpos := guards_dist_pos h2 h3
  have hne : centerDist x0 y0 x1 y1 ≠ 0 := ne_of_gt hpos
  have hdsym : centerDist x1 y1 x0 y0 = centerDist x0 y0 x1 y1 := by
    unfold centerDist
    congr 1
    ring
  have h1' : ¬ centerDist x1 y1 x0 y0 > r1 + r0 := by
    rw [hdsym, add_comm]
    exact h1
  have h2' : ¬ centerDist x1 y1 x0 y0 < |r1 - r0| := by
    rw [hdsym, abs_sub_comm]
    exact h2
  have h3' : ¬(centerDist x1 y1 x0 y0 = 0 ∧ r1 = r0) := by
    rw [hdsym]
    rintro ⟨hz, hr⟩
    exact h3 ⟨hz, hr.symm⟩
  rw [circle_eq_of_guards h1 h2 h3] at h
  rw [circle_eq_of_guards h1' h2' h3', hdsym]
  have hswapH : Real.sqrt (r1 ^ 2 - ((r1 ^ 2 - r0 ^ 2 + centerDist x0 y0 x1 y1 ^ 2) /
        (2 * centerDist x0 y0 x1 y1)) ^ 2) =
      Real.sqrt (r0 ^ 2 - ((r0 ^ 2 - r1 ^ 2 + centerDist x0 y0 x1 y1 ^ 2) /
        (2 * centerDist x0 y0 x1 y1)) ^ 2) := by
    congr 1
    field_simp
    ring
  simp only [Option.some.injEq, Prod.mk.injEq] at h ⊢
  obtain ⟨e3x, e3y, e4x, e4y⟩ := h
  rw [hswapH]
  refine ⟨?_, ?_, ?_, ?_⟩
  · rw [← e4x]
    field_simp
    ring
  · rw [← e4y]
    field_simp
    ring
  · rw [← e3x]
    field_simp
    ring
  · rw [← e3y]
    field_simp
    ring

/-- Concrete run: the circles centered `(0,0)` and `(6,0)` with radii `5`
meet in `(3, -4)` and `(3, 4)`. -/
lemma circle_eval_6 : circle_intersections 0 0 5 6 0 5 = some (3, -4, 3, 4) := by
  have hd : centerDist 0 0 6 0 = 6 := by
    unfold centerDist
    apply sqrt_val (by norm_num)
    norm_num
  have h16 : Real.sqrt (16 : ℝ) = 4 := by
    apply sqrt_val (by norm_num)
    norm_num
  rw [circle_eq_of_guards (by rw [hd]; norm_num) (by rw [hd]; norm_num)
    (by rw [hd]; norm_num)]
  rw [hd]
  norm_num [h16]

/-- Concrete run at the tangency boundary: the circles centered `(0,0)` and
`(2,0)` with radii `1` are externally tangent; the code still returns a
result, both points being `(1, 0)`. -/
lemma circle_eval_tangent : circle_intersections 0 0 1 2 0 1 = some (1, 0, 1, 0) := by
  have hd : centerDist 0 0 2 0 = 2 := by
    unfold centerDist
    apply sqrt_val (by norm_num)
    norm_num
  rw [circle_eq_of_guards (by rw [hd]; norm_num) (by rw [hd]; norm_num)
    (by rw [hd]; norm_num)]
  rw [hd]
  norm_num [Real.sqrt_zero]

/-! ### Facts about the partition loop and `get_arm_angles` -/

/-- Main invariant of the partition loop.  Started on a non-empty suffix
`s` with third-state `s.tail.sum` and any `d, l1` such that
`0 ≤ d + l1 + s.sum`, the loop never raises: it stops at some in-range
offset `k`, having consumed `(s.take k).sum` into the lead run, with the
bending segment `s.get k` and the trail run `(s.drop (k+1)).sum`. -/
lemma partLoop_ok (d : ℝ) (s : List ℝ) : ∀ (l1 : ℝ) (i : ℕ), s ≠ [] →
    0 ≤ d + l1 + s.sum →
    ∃ (k : ℕ) (hk : k < s.length),
      partLoop d l1 s.tail.sum i s =
        .ok (i + k, l1 + (s.take k).sum, s.get ⟨k, hk⟩, (s.drop (k + 1)).sum) := by
  induction s with
  | nil => exact fun l1 i hne _ => absurd rfl hne
  | cons c t ih =>
    intro l1 i _ hsum
    cases t with
    | nil =>
      refine ⟨0, by norm_num, ?_⟩
      simp only [List.tail_cons, List.sum_nil, partLoop]
      rw [if_neg (by simp only [List.sum_cons, List.sum_nil] at hsum; linarith)]
      simp
    | cons c' r =>
      by_cases hcond : (c :: c' :: r).tail.sum > d + l1 + c
      · have hstep : (c :: c' :: r).tail.sum - c' = (c' :: r).tail.sum := by
          simp only [List.tail_cons, List.sum_cons]
          ring
        obtain ⟨k, hk, hrec⟩ := ih (l1 + c) (i + 1) (by simp)
          (by simp only [List.sum_cons] at hsum ⊢; linarith)
        have hunfold : partLoop d l1 (c :: c' :: r).tail.sum i (c :: c' :: r) =
            partLoop d (l1 + c) ((c :: c' :: r).tail.sum - c') (i + 1) (c' :: r) := by
          simp only [partLoop]
          rw [if_pos hcond]
        refine ⟨k + 1, by simpa using Nat.succ_lt_succ hk, ?_⟩
        rw [hunfold, hstep, hrec]
        have hidx : i + 1 + k = i + (k + 1) := by omega
        have hsum2 : l1 + c + ((c' :: r).take k).sum =
            l1 + ((c :: c' :: r).take (k + 1)).sum := by
          simp only [List.take_succ_cons, List.sum_cons]
          ring
        rw [hidx, hsum2]
        rfl
      · refine ⟨0, by norm_num, ?_⟩
        simp only [partLoop]
        rw [if_neg hcond]
        simp

/-- The partition loop as invoked by `get_arm_angles`, when the target is
not beyond reach. -/
lemma partLoop_init_ok (x y : ℝ) (L : List ℝ) (hne : L ≠ [])
    (h1 : ¬ armD x y > L.sum) :
    ∃ (k : ℕ) (hk : k < L.length),
      partLoop (armD x y) 0 L.tail.sum 0 L =
        .ok (k, (L.take k).sum, L.get ⟨k, hk⟩, (L.drop (k + 1)).sum) := by
  have h0 : 0 ≤ armD x y := Real.sqrt_nonneg _
  push_neg at h1
  obtain ⟨k, hk, hres⟩ := partLoop_ok (armD x y) L 0 0 hne (by linarith)
  exact ⟨k, hk, by simpa using hres⟩

lemma armD_nonneg (x y : ℝ) : 0 ≤ armD x y := Real.sqrt_nonneg _

lemma armD_sq (x y : ℝ) : armD x y ^ 2 = x ^ 2 + y ^ 2 :=
  Real.sq_sqrt (by positivity)

/-- A nonzero distance means a nonzero target vector. -/
lemma armD_vec_ne {x y : ℝ} (h : armD x y ≠ 0) : ¬(x = 0 ∧ y = 0) := by
  rintro ⟨rfl, rfl⟩
  exact h (by simp [armD])

/-- Unfolding `get_arm_angles` when the first guard fires. -/
lemma gaa_guard1 {x y : ℝ} {L : List ℝ} (h1 : armD x y > L.sum) :
    get_arm_angles x y L = .ok none := by
  simp only [get_arm_angles]
  rw [if_pos h1]

/-- Unfolding `get_arm_angles` when the second guard fires. -/
lemma gaa_guard2 {x y : ℝ} {L : List ℝ} (h1 : ¬ armD x y > L.sum)
    (h2 : armD x y = 0) : get_arm_angles x y L = .ok none := by
  simp only [get_arm_angles]
  rw [if_neg h1, if_pos h2]

/-- Unfolding `get_arm_angles` when the circle-intersection step fails. -/
lemma gaa_circle_none {x y : ℝ} {L : List ℝ} {k : ℕ} {l1 l2 l3 : ℝ}
    (h1 : ¬ armD x y > L.sum) (h2 : ¬ armD x y = 0)
    (hp : partLoop (armD x y) 0 L.tail.sum 0 L = .ok (k, l1, l2, l3))
    (hc : circle_intersections (x * (-l1 / armD x y)) (y * (-l1 / armD x y))
        l2 x y l3 = none) :
    get_arm_angles x y L = .ok none := by
  simp only [get_arm_angles]
  rw [if_neg h1, if_neg h2]
  simp only [hp, hc]

/-- Unfolding `get_arm_angles` when the circle-intersection step succeeds. -/
lemma gaa_circle_some {x y : ℝ} {L : List ℝ} {k : ℕ} {l1 l2 l3 x2 y2 x4 y4 : ℝ}
    (h1 : ¬ armD x y > L.sum) (h2 : ¬ armD x y = 0)
    (hp : partLoop (armD x y) 0 L.tail.sum 0 L = .ok (k, l1, l2, l3))
    (hc : circle_intersections (x * (-l1 / armD x y)) (y * (-l1 / armD x y))
        l2 x y l3 = some (x2, y2, x4, y4)) :
    get_arm_angles x y L = .ok (some (List.replicate k (atan2 (-y) (-x))
      ++ [atan2 (y2 - y * (-l1 / armD x y)) (x2 - x * (-l1 / armD x y))]
      ++ List.replicate (L.length - k - 1) (atan2 (y - y2) (x - x2)))) := by
  simp only [get_arm_angles]
  rw [if_neg h1, if_neg h2]
  simp only [hp, hc]

/-! ### Facts about the cumulative chain walk -/

lemma walkChain_append (as1 as2 ls2 : List ℝ) :
    ∀ (ls1 : List ℝ) (p : ℝ × ℝ), as1.length = ls1.length →
    walkChain (as1 ++ as2) (ls1 ++ ls2) p =
      walkChain as2 ls2 (walkChain as1 ls1 p) := by
  induction as1 with
  | nil =>
    intro ls1 p hlen
    have : ls1 = [] := List.length_eq_zero.mp (by simpa using hlen.symm)
    subst this
    simp [walkChain]
  | cons a as ih =>
    intro ls1 p hlen
    cases ls1 with
    | nil => simp at hlen
    | cons l ls =>
      simp only [List.cons_append, walkChain]
      exact ih ls _ (by simpa using hlen)

lemma walkChain_replicate (θ : ℝ) :
    ∀ (n : ℕ) (ls : List ℝ) (p : ℝ × ℝ), ls.length = n →
    walkChain (List.replicate n θ) ls p =
      (p.1 + ls.sum * Real.cos θ, p.2 + ls.sum * Real.sin θ) := by
  intro n
  induction n with
  | zero =>
    intro ls p hlen
    have : ls = [] := List.length_eq_zero.mp hlen
    subst this
    simp [walkChain]
  | succ n ih =>
    intro ls p hlen
    cases ls with
    | nil => simp at hlen
    | cons l ls' =>
      simp only [List.replicate_succ, walkChain, List.sum_cons]
      rw [ih ls' _ (by simpa using hlen)]
      simp only [Prod.mk.injEq]
      constructor <;> ring

/-! ### Concrete evaluations -/

lemma centerDist_eval_6 : centerDist 0 0 6 0 = 6 := by
  unfold centerDist
  apply sqrt_val (by norm_num)
  norm_num

lemma armD_200 : armD 200 0 = 200 := by
  unfold armD
  apply sqrt_val (by norm_num)
  norm_num

lemma partLoop_eval_200 :
    partLoop (armD 200 0) 0 (([100, 100] : List ℝ).tail.sum) 0 [100, 100] =
      .ok (0, 0, 100, 100) := by
  rw [armD_200]
  norm_num [partLoop, List.tail_cons, List.sum_cons, List.sum_nil]

lemma circle_eval_centered :
    circle_intersections 0 0 100 200 0 100 = some (100, 0, 100, 0) := by
  have hd : centerDist 0 0 200 0 = 200 := by
    unfold centerDist
    apply sqrt_val (by norm_num)
    norm_num
  rw [circle_eq_of_guards (by rw [hd]; norm_num) (by rw [hd]; norm_num)
    (by rw [hd]; norm_num)]
  rw [hd]
  norm_num [Real.sqrt_zero]

lemma gaa_eval_200 : get_arm_angles 200 0 [100, 100] = .ok (some [0, 0]) := by
  have h1 : ¬ armD 200 0 > ([100, 100] : List ℝ).sum := by
    rw [armD_200]
    norm_num [List.sum_cons, List.sum_nil]
  have h2 : ¬ armD 200 0 = (0 : ℝ) := by
    rw [armD_200]
    norm_num
  have hc : circle_intersections ((200 : ℝ) * (-0 / armD 200 0))
      ((0 : ℝ) * (-0 / armD 200 0)) 100 200 0 100 = some (100, 0, 100, 0) := by
    rw [show ((200 : ℝ) * (-0 / armD 200 0)) = 0 by norm_num,
      show ((0 : ℝ) * (-0 / armD 200 0)) = 0 by norm_num]
    exact circle_eval_centered
  rw [gaa_circle_some h1 h2 partLoop_eval_200 hc]
  norm_num [atan2_zero_of_nonneg, List.replicate]

/-! ### Claim theorems -/

/-- C1: for every target `(x, y)` and every non-empty list of positive
segment lengths for which `get_arm_angles` returns an angle list, walking
the chain cumulatively from the origin — advancing by
`arm_lengths[i] * (cos angle_i, sin angle_i)` for each `i` in order —
terminates exactly at the target `(x, y)`, over exact real arithmetic. -/
theorem chain_reaches_target (x y : ℝ) (L angles : List ℝ)
    (hne : L ≠ []) (hpos : ∀ l ∈ L, 0 < l)
    (hres : get_arm_angles x y L = .ok (some angles)) :
    walkChain angles L (0, 0) = (x, y) := by
  by_cases h1 : armD x y > L.sum
  · rw [gaa_guard1 h1] at hres
    simp at hres
  by_cases h2 : armD x y = 0
  · rw [gaa_guard2 h1 h2] at hres
    simp at hres
  obtain ⟨k, hk, hp⟩ := partLoop_init_ok x y L hne h1
  rcases hc : circle_intersections (x * (-(L.take k).sum / armD x y))
      (y * (-(L.take k).sum / armD x y)) (L.get ⟨k, hk⟩) x y
      ((L.drop (k + 1)).sum) with _ | ⟨x2, y2, x4, y4⟩
  · rw [gaa_circle_none h1 h2 hp hc] at hres
    simp at hres
  · rw [gaa_circle_some h1 h2 hp hc] at hres
    simp only [PyResult.ok.injEq, Option.some.injEq] at hres
    subst hres
    have hdpos : 0 < armD x y := (armD_nonneg x y).lt_of_ne (Ne.symm h2)
    have hxy : ¬(x = 0 ∧ y = 0) := armD_vec_ne h2
    have hl2pos : 0 < L.get ⟨k, hk⟩ := hpos _ (List.get_mem L k hk)
    have hl3nn : 0 ≤ (L.drop (k + 1)).sum :=
      List.sum_nonneg fun z hz => (hpos z (List.mem_of_mem_drop hz)).le
    obtain ⟨⟨hcirc1, hcirc2⟩, -⟩ := circle_points_on_circles hc
    set d := armD x y with hd
    set l1 := (L.take k).sum with hl1def
    set l2 := L.get ⟨k, hk⟩ with hl2def
    set l3 := (L.drop (k + 1)).sum with hl3def
    set X1 := x * (-l1 / d) with hX1
    set Y1 := y * (-l1 / d) with hY1
    set m := L.length - k - 1 with hm
    have hdropk : L.drop k = l2 :: L.drop (k + 1) := by
      rw [List.drop_eq_getElem_cons hk, hl2def, List.get_eq_getElem]
    have hLdec : L = L.take k ++ (l2 :: L.drop (k + 1)) := by
      conv_lhs => rw [← List.take_append_drop k L]
      rw [hdropk]
    have hlentake : (L.take k).length = k := by
      rw [List.length_take]
      exact Nat.min_eq_left hk.le
    have hlendrop : (L.drop (k + 1)).length = m := by
      rw [List.length_drop]
      omega
    have hstage1 : walkChain (List.replicate k (atan2 (-y) (-x))) (L.take k)
        (0, 0) = (X1, Y1) := by
      rw [walkChain_replicate _ k (L.take k) (0, 0) hlentake]
      rw [cos_atan2 (-y) (-x)
        (by rintro ⟨hx0, hy0⟩; exact hxy ⟨by linarith, by linarith⟩)]
      rw [sin_atan2 (-y) (-x)]
      have hsq : Real.sqrt ((-x) ^ 2 + (-y) ^ 2) = d := by
        rw [show ((-x) : ℝ) ^ 2 + (-y) ^ 2 = x ^ 2 + y ^ 2 from by ring, hd]
        rfl
      rw [hsq]
      simp only [Prod.mk.injEq]
      constructor <;> ring
    have hbend : (X1 + l2 * Real.cos (atan2 (y2 - Y1) (x2 - X1)),
        Y1 + l2 * Real.sin (atan2 (y2 - Y1) (x2 - X1))) = (x2, y2) := by
      obtain ⟨hcos, hsin⟩ := move_along (x2 - X1) (y2 - Y1) l2 hl2pos
        (by linear_combination hcirc1)
      simp only [Prod.mk.injEq]
      constructor <;> linarith
    have hstage3 : walkChain (List.replicate m (atan2 (y - y2) (x - x2)))
        (L.drop (k + 1)) (x2, y2) = (x, y) := by
      rw [walkChain_replicate _ m _ _ hlendrop, ← hl3def]
      show (x2 + l3 * Real.cos (atan2 (y - y2) (x - x2)),
            y2 + l3 * Real.sin (atan2 (y - y2) (x - x2))) = (x, y)
      rcases hl3nn.lt_or_eq with hpos3 | hzero3
      · obtain ⟨hcos, hsin⟩ := move_along (x - x2) (y - y2) l3 hpos3
          (by linear_combination hcirc2)
        simp only [Prod.mk.injEq]
        constructor <;> linarith
      · have hsumz : (x2 - x) ^ 2 + (y2 - y) ^ 2 = 0 := by
          rw [hcirc2, ← hzero3]
          norm_num
        have hx2 : x2 = x := sub_eq_zero.mp
          ((pow_eq_zero_iff two_ne_zero).mp (by nlinarith [sq_nonneg (y2 - y)]))
        have hy2 : y2 = y := sub_eq_zero.mp
          ((pow_eq_zero_iff two_ne_zero).mp (by nlinarith [sq_nonneg (x2 - x)]))
        rw [← hzero3]
        simp [hx2, hy2]
    conv_lhs => rw [hLdec]
    rw [List.append_assoc]
    rw [walkChain_append (List.replicate k (atan2 (-y) (-x)))
      ([atan2 (y2 - Y1) (x2 - X1)] ++ List.replicate m (atan2 (y - y2) (x - x2)))
      (l2 :: L.drop (k + 1)) (L.take k) (0, 0)
      (by rw [List.length_replicate, hlentake])]
    rw [hstage1, List.singleton_append]
    have hstep2 : walkChain
        (atan2 (y2 - Y1) (x2 - X1) :: List.replicate m (atan2 (y - y2) (x - x2)))
        (l2 :: L.drop (k + 1)) (X1, Y1) =
        walkChain (List.replicate m (atan2 (y - y2) (x - x2))) (L.drop (k + 1))
          (X1 + l2 * Real.cos (atan2 (y2 - Y1) (x2 - X1)),
           Y1 + l2 * Real.sin (atan2 (y2 - Y1) (x2 - X1))) := rfl
    rw [hstep2, hbend]
    exact hstage3

/-- Witness for C1 at the concrete solve `(200, 0)` with lengths
`[100, 100]`. -/
theorem chain_reaches_target_check : walkChain [0, 0] [100, 100] (0, 0) = ((200 : ℝ), 0) :=
  chain_reaches_target 200 0 [100, 100] [0, 0] (by simp)
    (by intro l hl; rcases List.mem_cons.mp hl with rfl | hl
        · norm_num
        · rcases List.mem_cons.mp hl with rfl | hl
          · norm_num
          · simp at hl)
    gaa_eval_200

/-- C2: `get_arm_angles` never raises; it returns `None` exactly when the
target is beyond the total reach, or at distance zero, or the internal
circle-intersection step reports absence; otherwise it returns an angle
list. -/
theorem get_arm_angles_none_iff (x y : ℝ) (L : List ℝ) :
    ∃ o, get_arm_angles x y L = .ok o ∧
      (o = none ↔ (armD x y > L.sum ∨ armD x y = 0 ∨
        circleStep x y L = none)) := by
  by_cases h1 : armD x y > L.sum
  · exact ⟨none, gaa_guard1 h1, by simp [h1]⟩
  by_cases h2 : armD x y = 0
  · exact ⟨none, gaa_guard2 h1 h2, by simp [h2]⟩
  have hne : L ≠ [] := by
    rintro rfl
    push_neg at h1
    simp only [List.sum_nil] at h1
    exact h2 (le_antisymm h1 (armD_nonneg x y))
  obtain ⟨k, hk, hp⟩ := partLoop_init_ok x y L hne h1
  have hcs : circleStep x y L = circle_intersections
      (x * (-(L.take k).sum / armD x y)) (y * (-(L.take k).sum / armD x y))
      (L.get ⟨k, hk⟩) x y ((L.drop (k + 1)).sum) := by
    simp only [circleStep, hp]
  rcases hc : circle_intersections (x * (-(L.take k).sum / armD x y))
      (y * (-(L.take k).sum / armD x y)) (L.get ⟨k, hk⟩) x y
      ((L.drop (k + 1)).sum) with _ | ⟨x2, y2, x4, y4⟩
  · exact ⟨none, gaa_circle_none h1 h2 hp hc, by rw [hcs, hc]; simp⟩
  · exact ⟨_, gaa_circle_some h1 h2 hp hc, by rw [hcs, hc]; simp [h1, h2]⟩

/-- Witness for C2 at a concrete input. -/
theorem get_arm_angles_none_iff_check :
    ∃ o, get_arm_angles 200 0 [100, 100] = .ok o ∧
      (o = none ↔ (armD 200 0 > ([100, 100] : List ℝ).sum ∨ armD 200 0 = 0 ∨
        circleStep 200 0 [100, 100] = none)) :=
  get_arm_angles_none_iff 200 0 [100, 100]

/-- C3: every returned angle list has exactly the length of the input
segment-length list. -/
theorem get_arm_angles_length (x y : ℝ) (L angles : List ℝ)
    (hres : get_arm_angles x y L = .ok (some angles)) :
    angles.length = L.length := by
  by_cases h1 : armD x y > L.sum
  · rw [gaa_guard1 h1] at hres
    simp at hres
  by_cases h2 : armD x y = 0
  · rw [gaa_guard2 h1 h2] at hres
    simp at hres
  have hne : L ≠ [] := by
    rintro rfl
    push_neg at h1
    simp only [List.sum_nil] at h1
    exact h2 (le_antisymm h1 (armD_nonneg x y))
  obtain ⟨k, hk, hp⟩ := partLoop_init_ok x y L hne h1
  rcases hc : circle_intersections (x * (-(L.take k).sum / armD x y))
      (y * (-(L.take k).sum / armD x y)) (L.get ⟨k, hk⟩) x y
      ((L.drop (k + 1)).sum) with _ | ⟨x2, y2, x4, y4⟩
  · rw [gaa_circle_none h1 h2 hp hc] at hres
    simp at hres
  · rw [gaa_circle_some h1 h2 hp hc] at hres
    simp only [PyResult.ok.injEq, Option.some.injEq] at hres
    subst hres
    simp only [List.length_append, List.length_replicate, List.length_cons,
      List.length_nil]
    omega

/-- Witness for C3 at the concrete solve. -/
theorem get_arm_angles_length_check :
    ([0, 0] : List ℝ).length = ([100, 100] : List ℝ).length :=
  get_arm_angles_length 200 0 [100, 100] [0, 0] gaa_eval_200

/-- C4: `circle_intersections` returns `None` exactly when the center
distance exceeds the radius sum, or is below the absolute radius
difference, or the centers coincide with equal radii; in every other case
it returns two points. -/
theorem circle_intersections_none_iff (x0 y0 r0 x1 y1 r1 : ℝ) :
    (circle_intersections x0 y0 r0 x1 y1 r1 = none ↔
      (centerDist x0 y0 x1 y1 > r0 + r1 ∨
       centerDist x0 y0 x1 y1 < |r0 - r1| ∨
       (centerDist x0 y0 x1 y1 = 0 ∧ r0 = r1))) ∧
    (¬(centerDist x0 y0 x1 y1 > r0 + r1 ∨
       centerDist x0 y0 x1 y1 < |r0 - r1| ∨
       (centerDist x0 y0 x1 y1 = 0 ∧ r0 = r1)) →
      ∃ p3 q3 p4 q4,
        circle_intersections x0 y0 r0 x1 y1 r1 = some (p3, q3, p4, q4)) := by
  constructor
  · exact circle_none_iff x0 y0 r0 x1 y1 r1
  · intro hng
    have hg1 : ¬ centerDist x0 y0 x1 y1 > r0 + r1 := fun hcon => hng (Or.inl hcon)
    have hg2 : ¬ centerDist x0 y0 x1 y1 < |r0 - r1| :=
      fun hcon => hng (Or.inr (Or.inl hcon))
    have hg3 : ¬(centerDist x0 y0 x1 y1 = 0 ∧ r0 = r1) :=
      fun hcon => hng (Or.inr (Or.inr hcon))
    exact ⟨_, _, _, _, circle_eq_of_guards hg1 hg2 hg3⟩

/-- Witness for C4 at a concrete input. -/
theorem circle_intersections_none_iff_check :
    (circle_intersections 0 0 5 6 0 5 = none ↔
      (centerDist 0 0 6 0 > 5 + 5 ∨ centerDist 0 0 6 0 < |(5 : ℝ) - 5| ∨
       (centerDist 0 0 6 0 = 0 ∧ (5 : ℝ) = 5))) ∧
    (¬(centerDist 0 0 6 0 > 5 + 5 ∨ centerDist 0 0 6 0 < |(5 : ℝ) - 5| ∨
       (centerDist 0 0 6 0 = 0 ∧ (5 : ℝ) = 5)) →
      ∃ p3 q3 p4 q4, circle_intersections 0 0 5 6 0 5 = some (p3, q3, p4, q4)) :=
  circle_intersections_none_iff 0 0 5 6 0 5

/-- C5: a target at distance exactly the sum of the (positive, non-empty)
segment lengths is solved; concretely, lengths `(100, 100)` with target
`(200, 0)` give angles `[0, 0]`, whose cumulative endpoint is `(200, 0)`. -/
theorem reachability_boundary :
    (∀ (x y : ℝ) (L : List ℝ), L ≠ [] → (∀ l ∈ L, 0 < l) →
      armD x y = L.sum →
      ∃ angles, get_arm_angles x y L = .ok (some angles)) ∧
    get_arm_angles 200 0 [100, 100] = .ok (some [0, 0]) ∧
    walkChain [0, 0] [100, 100] (0, 0) = ((200 : ℝ), 0) := by
  refine ⟨?_, gaa_eval_200, ?_⟩
  · intro x y L hne hpos hdeq
    have hsumpos : 0 < L.sum := List.sum_pos L hpos hne
    have h1 : ¬ armD x y > L.sum := by
      rw [hdeq]
      exact lt_irrefl _
    have h2 : ¬ armD x y = 0 := by
      rw [hdeq]
      exact ne_of_gt hsumpos
    obtain ⟨c, t, rfl⟩ : ∃ c t, L = c :: t := by
      cases L with
      | nil => exact absurd rfl hne
      | cons c t => exact ⟨c, t, rfl⟩
    have hcpos : 0 < c := hpos c (by simp)
    have htnn : 0 ≤ t.sum :=
      List.sum_nonneg fun z hz => (hpos z (by simp [hz])).le
    have hsum : armD x y = c + t.sum := by
      rw [hdeq, List.sum_cons]
    have hdnn : 0 ≤ armD x y := armD_nonneg x y
    have hp : partLoop (armD x y) 0 ((c :: t).tail.sum) 0 (c :: t) =
        .ok (0, 0, c, t.sum) := by
      cases t with
      | nil =>
        simp only [List.tail_cons, List.sum_nil, partLoop]
        rw [if_neg (by push_neg; linarith)]
      | cons c' r =>
        simp only [List.tail_cons, partLoop]
        rw [if_neg (by push_neg; linarith)]
    have hcd : centerDist 0 0 x y = armD x y := by
      unfold centerDist armD
      norm_num
    have hg1 : ¬ centerDist 0 0 x y > c + t.sum := by
      rw [hcd, hsum]
      exact lt_irrefl _
    have hg2 : ¬ centerDist 0 0 x y < |c - t.sum| := by
      rw [hcd, hsum, not_lt]
      exact abs_le.mpr ⟨by linarith, by linarith⟩
    have hg3 : ¬(centerDist 0 0 x y = 0 ∧ c = t.sum) := by
      rw [hcd]
      rintro ⟨hz, -⟩
      exact h2 hz
    obtain ⟨p3, q3, p4, q4, hcirc⟩ : ∃ p3 q3 p4 q4,
        circle_intersections 0 0 c x y t.sum = some (p3, q3, p4, q4) :=
      ⟨_, _, _, _, circle_eq_of_guards hg1 hg2 hg3⟩
    have hc : circle_intersections (x * (-0 / armD x y)) (y * (-0 / armD x y))
        c x y t.sum = some (p3, q3, p4, q4) := by
      rw [show x * (-0 / armD x y) = 0 by norm_num,
        show y * (-0 / armD x y) = 0 by norm_num]
      exact hcirc
    exact ⟨_, gaa_circle_some h1 h2 hp hc⟩
  · norm_num [walkChain, Real.cos_zero, Real.sin_zero]

/-- Witness for C5: the concrete boundary solve exists. -/
theorem reachability_boundary_check :
    ∃ angles, get_arm_angles 200 0 [100, 100] = .ok (some angles) :=
  reachability_boundary.1 200 0 [100, 100] (by simp)
    (by intro l hl; rcases List.mem_cons.mp hl with rfl | hl
        · norm_num
        · rcases List.mem_cons.mp hl with rfl | hl
          · norm_num
          · simp at hl)
    (by rw [armD_200]; norm_num [List.sum_cons, List.sum_nil])

/-- C6 counterexample: the circles centered `(0,0)` and `(2,0)` with radii
`1` are externally tangent — their boundaries cross in exactly one point —
yet `circle_intersections` returns a result (the single tangency point,
twice) rather than the absence signal. -/
theorem tangent_circles_cex :
    circle_intersections 0 0 1 2 0 1 = some (1, 0, 1, 0) ∧
    ∀ p q : ℝ × ℝ,
      p.1 ^ 2 + p.2 ^ 2 = 1 ^ 2 → (p.1 - 2) ^ 2 + p.2 ^ 2 = 1 ^ 2 →
      q.1 ^ 2 + q.2 ^ 2 = 1 ^ 2 → (q.1 - 2) ^ 2 + q.2 ^ 2 = 1 ^ 2 → p = q := by
  refine ⟨circle_eval_tangent, ?_⟩
  intro p q hp1 hp2 hq1 hq2
  have hpy : p.2 = 0 := (pow_eq_zero_iff two_ne_zero).mp (by nlinarith)
  have hqy : q.2 = 0 := (pow_eq_zero_iff two_ne_zero).mp (by nlinarith)
  have hpx : p.1 = 1 := by nlinarith
  have hqx : q.1 = 1 := by nlinarith
  exact Prod.ext (by rw [hpx, hqx]) (by rw [hpy, hqy])

/-- C6 amended: whenever `circle_intersections` returns a result, both
returned points lie on both circle boundaries (so the boundaries meet in
at least one point); on the tangency boundary the two returned points
coincide, so a result does not guarantee two distinct crossing points. -/
theorem circle_points_on_boundaries (x0 y0 r0 x1 y1 r1 p3x p3y p4x p4y : ℝ)
    (h : circle_intersections x0 y0 r0 x1 y1 r1 = some (p3x, p3y, p4x, p4y)) :
    ((p3x - x0) ^ 2 + (p3y - y0) ^ 2 = r0 ^ 2 ∧
     (p3x - x1) ^ 2 + (p3y - y1) ^ 2 = r1 ^ 2) ∧
    ((p4x - x0) ^ 2 + (p4y - y0) ^ 2 = r0 ^ 2 ∧
     (p4x - x1) ^ 2 + (p4y - y1) ^ 2 = r1 ^ 2) :=
  circle_points_on_circles h

/-- Witness for the amended C6 at a concrete input. -/
theorem circle_points_on_boundaries_check :
    ((((3 : ℝ) - 0) ^ 2 + ((-4 : ℝ) - 0) ^ 2 = 5 ^ 2 ∧
      ((3 : ℝ) - 6) ^ 2 + ((-4 : ℝ) - 0) ^ 2 = 5 ^ 2) ∧
     (((3 : ℝ) - 0) ^ 2 + ((4 : ℝ) - 0) ^ 2 = 5 ^ 2 ∧
      ((3 : ℝ) - 6) ^ 2 + ((4 : ℝ) - 0) ^ 2 = 5 ^ 2)) :=
  circle_points_on_boundaries 0 0 5 6 0 5 3 (-4) 3 4 circle_eval_6

/-- C7: for a non-empty list of positive lengths and a target with
`0 < d ≤ sum`, the partition loop exits normally (no out-of-range index —
`PyResult.exn` is exactly an `IndexError` in the model) and the returned
`second_arm_index` is strictly below the list length. -/
theorem partition_loop_in_bounds (x y : ℝ) (L : List ℝ) (hne : L ≠ [])
    (hpos : ∀ l ∈ L, 0 < l) (hd0 : 0 < armD x y) (hdle : armD x y ≤ L.sum) :
    ∃ (k : ℕ) (l1 l2 l3 : ℝ),
      partLoop (armD x y) 0 L.tail.sum 0 L = .ok (k, l1, l2, l3) ∧
      k < L.length := by
  obtain ⟨k, hk, hp⟩ := partLoop_init_ok x y L hne (not_lt.mpr hdle)
  exact ⟨k, _, _, _, hp, hk⟩

/-- Witness for C7 at the concrete solve. -/
theorem partition_loop_in_bounds_check :
    ∃ (k : ℕ) (l1 l2 l3 : ℝ),
      partLoop (armD 200 0) 0 (([100, 100] : List ℝ).tail.sum) 0 [100, 100] =
        .ok (k, l1, l2, l3) ∧
      k < ([100, 100] : List ℝ).length :=
  partition_loop_in_bounds 200 0 [100, 100] (by simp)
    (by intro l hl; rcases List.mem_cons.mp hl with rfl | hl
        · norm_num
        · rcases List.mem_cons.mp hl with rfl | hl
          · norm_num
          · simp at hl)
    (by rw [armD_200]; norm_num)
    (by rw [armD_200]; norm_num [List.sum_cons, List.sum_nil])

/-- C8: if the circles genuinely intersect, swapping the two input circles
yields the same unordered pair of points — the result is exactly the pair
in swapped order. -/
theorem circle_intersections_swap (x0 y0 r0 x1 y1 r1 p3x p3y p4x p4y : ℝ)
    (h : circle_intersections x0 y0 r0 x1 y1 r1 = some (p3x, p3y, p4x, p4y)) :
    circle_intersections x1 y1 r1 x0 y0 r0 = some (p4x, p4y, p3x, p3y) :=
  circle_swap h

/-- Witness for C8 at a concrete input. -/
theorem circle_intersections_swap_check :
    circle_intersections 6 0 5 0 0 5 = some (3, 4, 3, -4) :=
  circle_intersections_swap 0 0 5 6 0 5 3 (-4) 3 4 circle_eval_6

/-- C9: when no rejection guard fires, the center distance is positive and
`a² ≤ r0²`, so every division and the square root of the success branch
are well-defined and the function totals with a result. -/
theorem circle_success_total (x0 y0 r0 x1 y1 r1 : ℝ)
    (h1 : ¬ centerDist x0 y0 x1 y1 > r0 + r1)
    (h2 : ¬ centerDist x0 y0 x1 y1 < |r0 - r1|)
    (h3 : ¬(centerDist x0 y0 x1 y1 = 0 ∧ r0 = r1)) :
    0 < centerDist x0 y0 x1 y1 ∧
    ((r0 ^ 2 - r1 ^ 2 + centerDist x0 y0 x1 y1 ^ 2) /
      (2 * centerDist x0 y0 x1 y1)) ^ 2 ≤ r0 ^ 2 ∧
    ∃ p3 q3 p4 q4,
      circle_intersections x0 y0 r0 x1 y1 r1 = some (p3, q3, p4, q4) := by
  have hpos := guards_dist_pos h2 h3
  exact ⟨hpos, guards_chord_sq_le h1 h2 hpos,
    _, _, _, _, circle_eq_of_guards h1 h2 h3⟩

/-- Witness for C9 at a concrete input. -/
theorem circle_success_total_check :
    0 < centerDist 0 0 6 0 ∧
    (((5 : ℝ) ^ 2 - 5 ^ 2 + centerDist 0 0 6 0 ^ 2) /
      (2 * centerDist 0 0 6 0)) ^ 2 ≤ 5 ^ 2 ∧
    ∃ p3 q3 p4 q4, circle_intersections 0 0 5 6 0 5 = some (p3, q3, p4, q4) :=
  circle_success_total 0 0 5 6 0 5
    (by rw [centerDist_eval_6]; norm_num)
    (by rw [centerDist_eval_6]; norm_num)
    (by rw [centerDist_eval_6]; norm_num)

/-- C10: with an empty segment list every target yields the absence
signal; the partition loop is never reached. -/
theorem get_arm_angles_nil (x y : ℝ) : get_arm_angles x y [] = .ok none := by
  by_cases h1 : armD x y > ([] : List ℝ).sum
  · exact gaa_guard1 h1
  · refine gaa_guard2 h1 ?_
    push_neg at h1
    simp only [List.sum_nil] at h1
    exact le_antisymm h1 (armD_nonneg x y)

/-- Witness for C10 at a concrete target. -/
theorem get_arm_angles_nil_check : get_arm_angles 3 4 [] = .ok none :=
  get_arm_angles_nil 3 4

end InvKinArms
